import Mathlib

/-!
Shallow embedding of the Figma MCP plugin bridge
(source: figma-mcp plugin-bridge module, class PluginBridge).

Wire data is modelled as List Char (a JavaScript string is a sequence of
characters).  The stateful class is modelled as a BridgeState record with
explicit state passing; promise settlement is recorded in an event list.
-/

namespace PluginBridgeModel

/-- Decimal digit character, 0 ≤ d ≤ 9 ↦ one of the characters 0 .. 9. -/
def digitChar (d : Nat) : Char := Char.ofNat (48 + d)

/-- Fuel-bounded digit accumulator; the fuel only serves structural
recursion and never runs out when it exceeds the number. -/
def natDigitsAux : Nat → Nat → List Char
  | 0, _ => []
  | fuel + 1, n =>
    if n < 10 then [digitChar n]
    else natDigitsAux fuel (n / 10) ++ [digitChar (n % 10)]

/-- Decimal rendering of a natural number, as JavaScript template literals
render the Date.now() timestamp and the counter (no leading zeros). -/
def natDigits (n : Nat) : List Char := natDigitsAux (n + 1) n

/-- Value of a digit string, inverse of natDigits. -/
def digitsVal (l : List Char) : Nat :=
  l.foldl (fun a c => 10 * a + (c.toNat - 48)) 0

/-- Identifier produced by PluginBridge.generateId: the template literal
cmd_<Date.now()>_<messageId++> (source line 174). -/
def genId (now counter : Nat) : List Char :=
  'c' :: 'm' :: 'd' :: '_' :: natDigits now ++ '_' :: natDigits counter

/-- Suffix of a character list strictly after its last occurrence of sep
(the whole list when sep does not occur). -/
def suffixAfter (sep : Char) (l : List Char) : List Char :=
  (l.reverse.takeWhile (fun c => c ≠ sep)).reverse

/-- Model of JavaScript String.prototype.split with separator the newline
character: the list of segments between newlines (always nonempty). -/
def splitNl : List Char → List (List Char)
  | [] => [[]]
  | c :: rest =>
    if c = '\n' then [] :: splitNl rest
    else
      match splitNl rest with
      | [] => [[c]]
      | s :: ss => (c :: s) :: ss

/-! JSON values.  Commands carry an untyped payload; JSON.stringify either
renders it (objects, arrays, strings, numbers, booleans, null) or throws
(circular structures, BigInt values).  The jsBigInt constructor stands for
the values on which JSON.stringify throws a TypeError. -/

mutual
inductive JsValue where
  | jsNull : JsValue
  | jsBool (b : Bool) : JsValue
  | jsNum (n : Int) : JsValue
  | jsStr (s : List Char) : JsValue
  | jsBigInt (n : Int) : JsValue
  | jsArr (elems : JsArr) : JsValue
  | jsObj (fields : JsObj) : JsValue
inductive JsArr where
  | nil : JsArr
  | cons (v : JsValue) (rest : JsArr) : JsArr
inductive JsObj where
  | nil : JsObj
  | cons (key : List Char) (v : JsValue) (rest : JsObj) : JsObj
end

/-- Hexadecimal digit character (lowercase, as JSON.stringify emits). -/
def hexDigit (d : Nat) : Char :=
  if d < 10 then Char.ofNat (48 + d) else Char.ofNat (87 + d)

/-- Four-digit hexadecimal rendering used in a \u escape. -/
def hex4 (n : Nat) : List Char :=
  [hexDigit (n / 4096 % 16), hexDigit (n / 256 % 16), hexDigit (n / 16 % 16), hexDigit (n % 16)]

/-- Escaping of one character inside a JSON string literal, following
JSON.stringify: quote, backslash and control characters are escaped, all
other characters pass through. -/
def escapeChar (c : Char) : List Char :=
  if c = '"' then ['\\', '"']
  else if c = '\\' then ['\\', '\\']
  else if c = '\n' then ['\\', 'n']
  else if c = '\r' then ['\\', 'r']
  else if c = '\t' then ['\\', 't']
  else if c.toNat = 8 then ['\\', 'b']
  else if c.toNat = 12 then ['\\', 'f']
  else if c.toNat < 32 then '\\' :: 'u' :: hex4 c.toNat
  else [c]

/-- Rendering of a JSON string literal with surrounding quotes. -/
def quoteStr (s : List Char) : List Char :=
  '"' :: (s.map escapeChar).flatten ++ ['"']

/-- Decimal rendering of an integer. -/
def intDigits (n : Int) : List Char :=
  if n < 0 then '-' :: natDigits n.natAbs else natDigits n.toNat

/-- Comma-separated join of rendered parts. -/
def commaJoin : List (List Char) → List Char
  | [] => []
  | [x] => x
  | x :: y :: ys => x ++ ',' :: commaJoin (y :: ys)

mutual
/-- Model of JSON.stringify on a JavaScript value: some rendered record,
or none when stringify throws. -/
def stringifyVal : JsValue → Option (List Char)
  | .jsNull => some ['n', 'u', 'l', 'l']
  | .jsBool true => some ['t', 'r', 'u', 'e']
  | .jsBool false => some ['f', 'a', 'l', 's', 'e']
  | .jsNum n => some (intDigits n)
  | .jsStr s => some (quoteStr s)
  | .jsBigInt _ => none
  | .jsArr elems =>
    match stringifyArr elems with
    | some parts => some ('[' :: commaJoin parts ++ [']'])
    | none => none
  | .jsObj fields =>
    match stringifyObj fields with
    | some parts => some ('\x7b' :: commaJoin parts ++ ['\x7d'])
    | none => none

/-- Rendered elements of an array, in order. -/
def stringifyArr : JsArr → Option (List (List Char))
  | .nil => some []
  | .cons v rest =>
    match stringifyVal v, stringifyArr rest with
    | some a, some b => some (a :: b)
    | _, _ => none

/-- Rendered key:value members of an object, in insertion order. -/
def stringifyObj : JsObj → Option (List (List Char))
  | .nil => some []
  | .cons key v rest =>
    match stringifyVal v, stringifyObj rest with
    | some a, some b => some ((quoteStr key ++ ':' :: a) :: b)
    | _, _ => none
end

deriving instance DecidableEq for JsValue

/-! Bridge state.  The class fields of PluginBridge become record fields;
promise settlement and console logging become explicit event lists so that
what each caller observes is part of the state. -/

/-- Result of JSON.parse on one line, cast to the PluginResponse shape the
code reads fields from (source lines 24-30). -/
structure PluginResponse where
  rtype : List Char
  success : Bool
  data : Option JsValue
  error : Option (List Char)
  id : Option (List Char)
deriving DecidableEq

/-- Outbound command: its type tag string and its (optional, untyped)
payload, as in the PluginCommand union type (source lines 14-22). -/
structure PluginCommand where
  ctype : List Char
  payload : Option JsValue
deriving DecidableEq

/-- Child process handle: whether its stdin stream is available. -/
structure ProcHandle where
  stdinAvailable : Bool
deriving DecidableEq

/-- How a caller's promise was settled by sendCommand's executor or by the
stored response callback (source lines 118-133). -/
inductive Outcome where
  | resolved (data : Option JsValue)
  | rejectedError (msg : List Char)
  | rejectedSerialize
  | rejectedNoProcess
deriving DecidableEq

/-- Console-log events emitted by handlePluginOutput and the exit handler. -/
inductive LogEvent where
  | parseError (raw : List Char)
  | unmatchedResponse (r : PluginResponse)
  | exitLogged
deriving DecidableEq

/-- State of one PluginBridge instance plus the externally observable
events (settlements, bytes written to the child's stdin, log lines). -/
structure BridgeState where
  pluginProcess : Option ProcHandle
  responseCallbacks : List (List Char × Nat)
  messageBuffer : List Char
  messageId : Nat
  settled : List (Nat × Outcome)
  written : List Char
  log : List LogEvent
deriving DecidableEq

/-- Lookup in the callback map (JavaScript Map.get / Map.has). -/
def lookupKey : List (List Char × Nat) → List Char → Option Nat
  | [], _ => none
  | (k, v) :: rest, key => if k = key then some v else lookupKey rest key

/-- Deletion from the callback map (JavaScript Map.delete). -/
def eraseKey : List (List Char × Nat) → List Char → List (List Char × Nat)
  | [], _ => []
  | (k, v) :: rest, key => if k = key then rest else (k, v) :: eraseKey rest key

/-- Insertion into the callback map (JavaScript Map.set): replaces the
value in place when the key is present, appends otherwise. -/
def setKey : List (List Char × Nat) → List Char → Nat → List (List Char × Nat)
  | [], key, v => [(key, v)]
  | (k, w) :: rest, key, v =>
    if k = key then (key, v) :: rest else (k, w) :: setKey rest key v

/-- Characters removed by JavaScript String.prototype.trim. -/
def jsWhitespace (c : Char) : Bool :=
  ([9, 10, 11, 12, 13, 32, 160, 5760, 8192, 8193, 8194, 8195, 8196, 8197,
    8198, 8199, 8200, 8201, 8202, 8232, 8233, 8239, 8287, 12288,
    65279] : List Nat).contains c.toNat

/-- A line is skipped when line.trim() is falsy, i.e. empty after trim. -/
def isBlank (l : List Char) : Bool := l.all jsWhitespace

/-- Message of the rejection produced by the stored callback: JavaScript
response.error or the default when that value is falsy (source line 122). -/
def errMsg : Option (List Char) → List Char
  | some e =>
    if e = [] then ['U', 'n', 'k', 'n', 'o', 'w', 'n', ' ', 'e', 'r', 'r', 'o', 'r'] else e
  | none => ['U', 'n', 'k', 'n', 'o', 'w', 'n', ' ', 'e', 'r', 'r', 'o', 'r']

/-- Effect of the stored response callback on the caller's promise
(source lines 118-124): resolve with data on success, else reject. -/
def outcomeOf (r : PluginResponse) : Outcome :=
  if r.success then .resolved r.data else .rejectedError (errMsg r.error)

/-- Body of the per-line loop of handlePluginOutput (source lines 150-169),
with parse standing for the JSON.parse builtin (none models a throw). -/
def resolveLine (parse : List Char → Option PluginResponse)
    (st : BridgeState) (line : List Char) : BridgeState :=
  if isBlank line then st
  else
    match parse line with
    | none => { st with log := st.log ++ [.parseError line] }
    | some r =>
      match r.id with
      | some i =>
        if i = [] then { st with log := st.log ++ [.unmatchedResponse r] }
        else
          match lookupKey st.responseCallbacks i with
          | some caller =>
            { st with
              settled := st.settled ++ [(caller, outcomeOf r)],
              responseCallbacks := eraseKey st.responseCallbacks i }
          | none => { st with log := st.log ++ [.unmatchedResponse r] }
      | none => { st with log := st.log ++ [.unmatchedResponse r] }

/-- Folding the per-line loop over the complete lines of the buffer. -/
def processLines (parse : List Char → Option PluginResponse)
    (st : BridgeState) (lines : List (List Char)) : BridgeState :=
  lines.foldl (resolveLine parse) st

/-- PluginBridge.handlePluginOutput (source lines 139-170): append the
chunk to messageBuffer, split on newlines, keep the last (incomplete)
segment as the new buffer, process each complete line. -/
def handlePluginOutput (parse : List Char → Option PluginResponse)
    (st : BridgeState) (data : List Char) : BridgeState :=
  processLines parse
    { st with messageBuffer := (splitNl (st.messageBuffer ++ data)).getLastD [] }
    (splitNl (st.messageBuffer ++ data)).dropLast

/-- The message object sent on the wire: spread of the command object
followed by the generated id (source lines 112-115), with JavaScript
property insertion order type, payload, id. -/
def mkMessage (cmd : PluginCommand) (i : List Char) : JsValue :=
  .jsObj
    (.cons ['t', 'y', 'p', 'e'] (.jsStr cmd.ctype)
      (match cmd.payload with
       | some p =>
         .cons ['p', 'a', 'y', 'l', 'o', 'a', 'd'] p
           (.cons ['i', 'd'] (.jsStr i) .nil)
       | none => .cons ['i', 'd'] (.jsStr i) .nil))

/-- A command payload is representable when JSON.stringify succeeds on it. -/
def representable (cmd : PluginCommand) : Bool :=
  match cmd.payload with
  | none => true
  | some p => (stringifyVal p).isSome

/-- Body of the promise executor of PluginBridge.sendCommand (source lines
106-135): generate an id, store the callback with Map.set, then try to
write the encoded message; caller names the promise being settled, now is
the Date.now() value read inside generateId. -/
def sendCommand (st : BridgeState) (cmd : PluginCommand) (caller : Nat)
    (now : Nat) : BridgeState :=
  let i := genId now st.messageId
  let st2 := { st with
    messageId := st.messageId + 1,
    responseCallbacks := setKey st.responseCallbacks i caller }
  match st2.pluginProcess with
  | some proc =>
    if proc.stdinAvailable then
      match stringifyVal (mkMessage cmd i) with
      | some body => { st2 with written := st2.written ++ body ++ ['\n'] }
      | none => { st2 with settled := st2.settled ++ [(caller, .rejectedSerialize)] }
    else { st2 with settled := st2.settled ++ [(caller, .rejectedNoProcess)] }
  | none => { st2 with settled := st2.settled ++ [(caller, .rejectedNoProcess)] }

/-- Sequence of sendCommand calls: each triple is (command, caller, now). -/
def sendAll (st : BridgeState) : List (PluginCommand × Nat × Nat) → BridgeState
  | [] => st
  | (cmd, caller, now) :: rest => sendAll (sendCommand st cmd caller now) rest

/-- Identifiers generateId assigns to a sequence of sends, starting from a
given counter value. -/
def assignedIds (mid : Nat) : List (PluginCommand × Nat × Nat) → List (List Char)
  | [] => []
  | (_, _, now) :: rest => genId now mid :: assignedIds (mid + 1) rest

/-- Registry rows (id, caller) created by a sequence of sends. -/
def pendingOf (mid : Nat) : List (PluginCommand × Nat × Nat) → List (List Char × Nat)
  | [] => []
  | (_, caller, now) :: rest => (genId now mid, caller) :: pendingOf (mid + 1) rest

/-- PluginBridge.shutdown (source lines 191-196): kill the child process
and null the handle; nothing else is touched. -/
def shutdown (st : BridgeState) : BridgeState :=
  match st.pluginProcess with
  | some _ => { st with pluginProcess := none }
  | none => st

/-- The exit handler installed in initialize (source lines 87-90): log and
null the process handle; nothing else is touched. -/
def onProcessExit (st : BridgeState) : BridgeState :=
  { st with pluginProcess := none, log := st.log ++ [.exitLogged] }

/-- Concatenation of newline-terminated records into one chunk. -/
def joinNl (ls : List (List Char)) : List Char :=
  (ls.map (fun l => l ++ ['\n'])).flatten

/-! Normal form of the per-line loop body: the registry after the line,
and the settlement and log entries it appends, as functions of the
registry and the line alone. -/

/-- Registry contents after processing one line. -/
def rcAfter (parse : List Char → Option PluginResponse)
    (m : List (List Char × Nat)) (line : List Char) : List (List Char × Nat) :=
  if isBlank line then m
  else match parse line with
    | none => m
    | some r =>
      match r.id with
      | some i =>
        if i = [] then m
        else match lookupKey m i with
          | some _ => eraseKey m i
          | none => m
      | none => m

/-- Settlements appended by processing one line. -/
def settleDelta (parse : List Char → Option PluginResponse)
    (m : List (List Char × Nat)) (line : List Char) : List (Nat × Outcome) :=
  if isBlank line then []
  else match parse line with
    | none => []
    | some r =>
      match r.id with
      | some i =>
        if i = [] then []
        else match lookupKey m i with
          | some caller => [(caller, outcomeOf r)]
          | none => []
      | none => []

/-- Log entries appended by processing one line. -/
def logDelta (parse : List Char → Option PluginResponse)
    (m : List (List Char × Nat)) (line : List Char) : List LogEvent :=
  if isBlank line then []
  else match parse line with
    | none => [.parseError line]
    | some r =>
      match r.id with
      | some i =>
        if i = [] then [.unmatchedResponse r]
        else match lookupKey m i with
          | some _ => []
          | none => [.unmatchedResponse r]
      | none => [.unmatchedResponse r]

/-! Delivery of matched replies: the heart of the correlation argument. -/

/-- One matched reply delivery: the raw line, the id it carries, the
caller registered under that id, and the parsed response. -/
structure Delivery where
  line : List Char
  respId : List Char
  caller : Nat
  resp : PluginResponse
deriving DecidableEq

/-- Registry row a delivery consumes. -/
def deliveryPair (d : Delivery) : List Char × Nat := (d.respId, d.caller)

/-- Settlement a delivery produces. -/
def deliveryOutcome (d : Delivery) : Nat × Outcome := (d.caller, outcomeOf d.resp)

/-- Projection of the state without its console log. -/
def sansLog (st : BridgeState) : BridgeState := { st with log := [] }

theorem natDigitsAux_succ (fuel n : Nat) :
    natDigitsAux (fuel + 1) n =
      if n < 10 then [digitChar n]
      else natDigitsAux fuel (n / 10) ++ [digitChar (n % 10)] := rfl

theorem natDigitsAux_irrel (f1 : Nat) : ∀ f2 n, n < f1 → n < f2 →
    natDigitsAux f1 n = natDigitsAux f2 n := by
  induction f1 using Nat.strong_induction_on with
  | _ f1 ih =>
    intro f2 n h1 h2
    rcases f1 with _ | g1
    · omega
    rcases f2 with _ | g2
    · omega
    rw [natDigitsAux_succ, natDigitsAux_succ]
    by_cases hn : n < 10
    · simp [hn]
    · rw [if_neg hn, if_neg hn]
      have hlt : n / 10 < n := Nat.div_lt_self (by omega) (by omega)
      rw [ih g1 (by omega) g2 (n / 10) (by omega) (by omega)]

/-- Unfolding equation matching the usual recursive presentation. -/
theorem natDigits_eq (n : Nat) :
    natDigits n =
      if n < 10 then [digitChar n]
      else natDigits (n / 10) ++ [digitChar (n % 10)] := by
  show natDigitsAux (n + 1) n = _
  rw [natDigitsAux_succ]
  by_cases hn : n < 10
  · rw [if_pos hn, if_pos hn]
  · rw [if_neg hn, if_neg hn]
    have hlt : n / 10 < n := Nat.div_lt_self (by omega) (by omega)
    rw [natDigitsAux_irrel n (n / 10 + 1) (n / 10) (by omega) (by omega)]
    rfl

theorem splitNl_ne_nil (l : List Char) : splitNl l ≠ [] := by
  cases l with
  | nil => simp [splitNl]
  | cons c rest =>
    simp only [splitNl]
    split
    · simp
    · split
      · simp
      · simp

theorem mem_splitNl_no_nl (l : List Char) : ∀ s ∈ splitNl l, '\n' ∉ s := by
  induction l with
  | nil => intro s hs; simp [splitNl] at hs; simp [hs]
  | cons c rest ih =>
    intro s hs
    simp only [splitNl] at hs
    by_cases hc : c = '\n'
    · simp [hc] at hs
      rcases hs with h | h
      · simp [h]
      · exact ih s h
    · simp [hc] at hs
      rcases hsp : splitNl rest with _ | ⟨t, ts⟩
      · exact absurd hsp (splitNl_ne_nil rest)
      · rw [hsp] at hs
        simp at hs
        rcases hs with h | h
        · subst h
          intro hmem
          simp at hmem
          rcases hmem with h | h
          · exact hc h.symm
          · exact ih t (by simp [hsp]) h
        · exact ih s (by simp [hsp, h])

theorem splitNl_of_no_nl (l : List Char) (h : '\n' ∉ l) : splitNl l = [l] := by
  induction l with
  | nil => simp [splitNl]
  | cons c rest ih =>
    simp at h
    simp only [splitNl]
    rw [if_neg (fun hc => h.1 hc.symm)]
    rw [ih h.2]

theorem splitNl_cons_nl (rest : List Char) :
    splitNl ('\n' :: rest) = [] :: splitNl rest := by
  simp [splitNl]

theorem splitNl_cons_other (c : Char) (rest : List Char) (hc : c ≠ '\n') :
    splitNl (c :: rest) = (c :: (splitNl rest).headI) :: (splitNl rest).tail := by
  simp only [splitNl, if_neg hc]
  rcases h : splitNl rest with _ | ⟨s, ss⟩
  · exact absurd h (splitNl_ne_nil rest)
  · simp

/-- Splitting an appended list: the last segment of the first part fuses
with the first segment of the second part. -/
theorem splitNl_append (a b : List Char) :
    splitNl (a ++ b) =
      (splitNl a).dropLast ++
        ((splitNl a).getLastD [] ++ (splitNl b).headI) :: (splitNl b).tail := by
  induction a with
  | nil =>
    simp [splitNl]
    rcases h : splitNl b with _ | ⟨s, ss⟩
    · exact absurd h (splitNl_ne_nil b)
    · simp
  | cons c rest ih =>
    rcases h : splitNl rest with _ | ⟨s, ss⟩
    · exact absurd h (splitNl_ne_nil rest)
    by_cases hc : c = '\n'
    · subst hc
      rw [List.cons_append, splitNl_cons_nl, splitNl_cons_nl, ih, h]
      rcases ss with _ | ⟨t, ts⟩
      · simp
      · simp
    · rw [List.cons_append, splitNl_cons_other c _ hc, splitNl_cons_other c _ hc, ih, h]
      rcases ss with _ | ⟨t, ts⟩
      · rcases hb : splitNl b with _ | ⟨u, us⟩
        · exact absurd hb (splitNl_ne_nil b)
        · simp
      · simp

theorem digitChar_toNat (d : Nat) (h : d < 10) : (digitChar d).toNat = 48 + d := by
  interval_cases d <;> decide

theorem natDigits_digit (n : Nat) : ∀ c ∈ natDigits n, 48 ≤ c.toNat ∧ c.toNat ≤ 57 := by
  induction n using Nat.strong_induction_on with
  | _ n ih =>
    intro c hc
    rw [natDigits_eq] at hc
    split at hc
    · next h =>
      simp at hc
      subst hc
      rw [digitChar_toNat n h]
      omega
    · next h =>
      simp at hc
      rcases hc with h1 | h1
      · exact ih (n / 10) (Nat.div_lt_self (by omega) (by omega)) c h1
      · subst h1
        rw [digitChar_toNat (n % 10) (Nat.mod_lt n (by omega))]
        have := Nat.mod_lt n (show 0 < 10 by omega)
        omega

theorem natDigits_no_underscore (n : Nat) : '_' ∉ natDigits n := by
  intro h
  exact absurd (natDigits_digit n '_' h) (by decide)

theorem natDigits_no_nl (n : Nat) : '\n' ∉ natDigits n := by
  intro h
  exact absurd (natDigits_digit n '\n' h) (by decide)

theorem digitsVal_append_one (l : List Char) (c : Char) :
    digitsVal (l ++ [c]) = 10 * digitsVal l + (c.toNat - 48) := by
  simp [digitsVal, List.foldl_append]

theorem digitsVal_natDigits (n : Nat) : digitsVal (natDigits n) = n := by
  induction n using Nat.strong_induction_on with
  | _ n ih =>
    rw [natDigits_eq]
    split
    · next h =>
      simp [digitsVal, digitChar_toNat n h]
    · next h =>
      rw [digitsVal_append_one,
        ih (n / 10) (Nat.div_lt_self (by omega) (by omega)),
        digitChar_toNat (n % 10) (Nat.mod_lt n (by omega))]
      omega

theorem natDigits_injective (a b : Nat) (h : natDigits a = natDigits b) : a = b := by
  have := digitsVal_natDigits a
  rw [h, digitsVal_natDigits b] at this
  omega

theorem takeWhile_all_append (p : Char → Bool) (l : List Char) (y : Char) (t : List Char)
    (hall : ∀ x ∈ l, p x = true) (hy : p y = false) :
    (l ++ y :: t).takeWhile p = l := by
  induction l with
  | nil => simp [List.takeWhile, hy]
  | cons c cs ih =>
    simp at hall
    simp [List.takeWhile, hall.1, ih (fun x hx => hall.2 x hx)]

theorem suffixAfter_append (sep : Char) (a b : List Char) (hb : sep ∉ b) :
    suffixAfter sep (a ++ sep :: b) = b := by
  unfold suffixAfter
  rw [show (a ++ sep :: b).reverse = b.reverse ++ sep :: a.reverse by simp]
  rw [takeWhile_all_append _ _ _ _ ?_ (by simp)]
  · simp
  · intro x hx
    simp at hx
    simp
    intro heq
    exact hb (heq ▸ hx)

/-- The numeric counter component can always be read back off a generated
identifier: it is the suffix after the last underscore. -/
theorem suffixAfter_genId (now counter : Nat) :
    suffixAfter '_' (genId now counter) = natDigits counter := by
  have : genId now counter =
      ('c' :: 'm' :: 'd' :: '_' :: natDigits now) ++ '_' :: natDigits counter := by
    simp [genId]
  rw [this]
  exact suffixAfter_append '_' _ _ (natDigits_no_underscore counter)

theorem hexDigit_ne_nl (d : Nat) (h : d < 16) : hexDigit d ≠ '\n' := by
  interval_cases d <;> decide

theorem escapeChar_no_nl (c : Char) : '\n' ∉ escapeChar c := by
  unfold escapeChar
  split_ifs with h1 h2 h3 h4 h5 h6 h7 h8
  · decide
  · decide
  · decide
  · decide
  · decide
  · decide
  · decide
  · intro hmem
    rcases List.mem_cons.mp hmem with h | hmem
    · exact absurd h (by decide)
    rcases List.mem_cons.mp hmem with h | hmem
    · exact absurd h (by decide)
    simp only [hex4] at hmem
    rcases List.mem_cons.mp hmem with h | hmem
    · exact hexDigit_ne_nl _ (by omega) h.symm
    rcases List.mem_cons.mp hmem with h | hmem
    · exact hexDigit_ne_nl _ (by omega) h.symm
    rcases List.mem_cons.mp hmem with h | hmem
    · exact hexDigit_ne_nl _ (by omega) h.symm
    rcases List.mem_cons.mp hmem with h | hmem
    · exact hexDigit_ne_nl _ (by omega) h.symm
    simp at hmem
  · intro hmem
    rcases List.mem_cons.mp hmem with h | hmem
    · exact h3 h.symm
    simp at hmem

theorem quoteStr_no_nl (s : List Char) : '\n' ∉ quoteStr s := by
  intro hmem
  unfold quoteStr at hmem
  rcases List.mem_cons.mp hmem with h | hmem
  · exact absurd h (by decide)
  rcases List.mem_append.mp hmem with hf | hq
  · rcases List.mem_flatten.mp hf with ⟨l, hl, hnl⟩
    rcases List.mem_map.mp hl with ⟨c, _, rfl⟩
    exact escapeChar_no_nl c hnl
  · rcases List.mem_cons.mp hq with h | h
    · exact absurd h (by decide)
    · simp at h

theorem intDigits_no_nl (n : Int) : '\n' ∉ intDigits n := by
  unfold intDigits
  split_ifs
  · intro hmem
    rcases List.mem_cons.mp hmem with h | hmem
    · exact absurd h (by decide)
    · exact natDigits_no_nl _ hmem
  · exact natDigits_no_nl _

theorem commaJoin_no_nl (ps : List (List Char)) (h : ∀ p ∈ ps, '\n' ∉ p) :
    '\n' ∉ commaJoin ps := by
  induction ps with
  | nil => simp [commaJoin]
  | cons x xs ih =>
    cases xs with
    | nil => simpa [commaJoin] using h x (by simp)
    | cons y ys =>
      simp only [commaJoin]
      intro hmem
      rcases List.mem_append.mp hmem with hx | hrest
      · exact h x (by simp) hx
      rcases List.mem_cons.mp hrest with hc | hrest2
      · exact absurd hc (by decide)
      · exact ih (fun p hp => h p (by simp at hp ⊢; tauto)) hrest2

mutual
theorem stringifyVal_no_nl (v : JsValue) (s : List Char)
    (h : stringifyVal v = some s) : '\n' ∉ s := by
  cases v with
  | jsNull => simp [stringifyVal] at h; subst h; decide
  | jsBool b => cases b <;> (simp [stringifyVal] at h; subst h; decide)
  | jsNum n => simp [stringifyVal] at h; subst h; exact intDigits_no_nl n
  | jsStr str => simp [stringifyVal] at h; subst h; exact quoteStr_no_nl str
  | jsBigInt n => simp [stringifyVal] at h
  | jsArr elems =>
    rw [stringifyVal] at h
    cases he : stringifyArr elems with
    | none => rw [he] at h; exact absurd h (by simp)
    | some ps =>
      rw [he] at h
      simp at h
      subst h
      intro hmem
      rcases List.mem_cons.mp hmem with hh | hmem
      · exact absurd hh (by decide)
      rcases List.mem_append.mp hmem with hh | hh
      · exact commaJoin_no_nl ps (stringifyArr_no_nl elems ps he) hh
      · rcases List.mem_cons.mp hh with hh | hh
        · exact absurd hh (by decide)
        · simp at hh
  | jsObj fields =>
    rw [stringifyVal] at h
    cases he : stringifyObj fields with
    | none => rw [he] at h; exact absurd h (by simp)
    | some ps =>
      rw [he] at h
      simp at h
      subst h
      intro hmem
      rcases List.mem_cons.mp hmem with hh | hmem
      · exact absurd hh (by decide)
      rcases List.mem_append.mp hmem with hh | hh
      · exact commaJoin_no_nl ps (stringifyObj_no_nl fields ps he) hh
      · rcases List.mem_cons.mp hh with hh | hh
        · exact absurd hh (by decide)
        · simp at hh

theorem stringifyArr_no_nl (a : JsArr) (ps : List (List Char))
    (h : stringifyArr a = some ps) : ∀ p ∈ ps, '\n' ∉ p := by
  cases a with
  | nil => simp [stringifyArr] at h; subst h; simp
  | cons v rest =>
    rw [stringifyArr] at h
    cases hv : stringifyVal v with
    | none => rw [hv] at h; exact absurd h (by simp)
    | some sv =>
      cases hr : stringifyArr rest with
      | none => rw [hv, hr] at h; exact absurd h (by simp)
      | some sr =>
        rw [hv, hr] at h
        simp at h
        subst h
        intro p hp
        rcases List.mem_cons.mp hp with hp | hp
        · subst hp; exact stringifyVal_no_nl v p hv
        · exact stringifyArr_no_nl rest sr hr p hp

theorem stringifyObj_no_nl (o : JsObj) (ps : List (List Char))
    (h : stringifyObj o = some ps) : ∀ p ∈ ps, '\n' ∉ p := by
  cases o with
  | nil => simp [stringifyObj] at h; subst h; simp
  | cons key v rest =>
    rw [stringifyObj] at h
    cases hv : stringifyVal v with
    | none => rw [hv] at h; exact absurd h (by simp)
    | some sv =>
      cases hr : stringifyObj rest with
      | none => rw [hv, hr] at h; exact absurd h (by simp)
      | some sr =>
        rw [hv, hr] at h
        simp at h
        subst h
        intro p hp
        rcases List.mem_cons.mp hp with hp | hp
        · subst hp
          intro hmem
          rcases List.mem_append.mp hmem with hh | hh
          · exact quoteStr_no_nl key hh
          rcases List.mem_cons.mp hh with hh | hh
          · exact absurd hh (by decide)
          · exact stringifyVal_no_nl v sv hv hh
        · exact stringifyObj_no_nl rest sr hr p hp
end

theorem resolveLine_eq_build (parse : List Char → Option PluginResponse)
    (st : BridgeState) (line : List Char) :
    resolveLine parse st line =
      { st with
        responseCallbacks := rcAfter parse st.responseCallbacks line,
        settled := st.settled ++ settleDelta parse st.responseCallbacks line,
        log := st.log ++ logDelta parse st.responseCallbacks line } := by
  by_cases hb : isBlank line
  · simp [resolveLine, rcAfter, settleDelta, logDelta, hb]
  · cases hp : parse line with
    | none => simp [resolveLine, rcAfter, settleDelta, logDelta, hb, hp]
    | some r =>
      cases hid : r.id with
      | none => simp [resolveLine, rcAfter, settleDelta, logDelta, hb, hp, hid]
      | some i =>
        by_cases hie : i = []
        · simp [resolveLine, rcAfter, settleDelta, logDelta, hb, hp, hid, hie]
        · cases hl : lookupKey st.responseCallbacks i with
          | none => simp [resolveLine, rcAfter, settleDelta, logDelta, hb, hp, hid, hie, hl]
          | some caller =>
            simp [resolveLine, rcAfter, settleDelta, logDelta, hb, hp, hid, hie, hl]

theorem resolveLine_buffer_float (parse : List Char → Option PluginResponse)
    (st : BridgeState) (line : List Char) (b : List Char) :
    resolveLine parse { st with messageBuffer := b } line =
      { resolveLine parse st line with messageBuffer := b } := by
  rw [resolveLine_eq_build, resolveLine_eq_build]

theorem processLines_buffer_float (parse : List Char → Option PluginResponse)
    (ls : List (List Char)) (st : BridgeState) (b : List Char) :
    processLines parse { st with messageBuffer := b } ls =
      { processLines parse st ls with messageBuffer := b } := by
  induction ls generalizing st with
  | nil => rfl
  | cons l ls ih =>
    show processLines parse (resolveLine parse { st with messageBuffer := b } l) ls = _
    rw [resolveLine_buffer_float, ih]
    rfl

theorem processLines_messageBuffer (parse : List Char → Option PluginResponse)
    (ls : List (List Char)) (st : BridgeState) :
    (processLines parse st ls).messageBuffer = st.messageBuffer := by
  induction ls generalizing st with
  | nil => rfl
  | cons l ls ih =>
    show (processLines parse (resolveLine parse st l) ls).messageBuffer = _
    rw [ih, resolveLine_eq_build]

theorem processLines_append (parse : List Char → Option PluginResponse)
    (l1 l2 : List (List Char)) (st : BridgeState) :
    processLines parse st (l1 ++ l2) = processLines parse (processLines parse st l1) l2 :=
  List.foldl_append _ _ _ _

theorem getLastD_mem_of_ne_nil (l : List (List Char)) (d : List Char) (h : l ≠ []) :
    l.getLastD d ∈ l := by
  rcases Option.isSome_iff_exists.mp (List.getLast?_isSome.mpr h) with ⟨a, ha⟩
  rw [List.getLastD_eq_getLast?, ha]
  exact List.mem_of_mem_getLast? ha

theorem getLastD_append_of_ne_nil (l1 l2 : List (List Char)) (h : l2 ≠ [])
    (d : List Char) : (l1 ++ l2).getLastD d = l2.getLastD d := by
  rcases Option.isSome_iff_exists.mp (List.getLast?_isSome.mpr h) with ⟨a, ha⟩
  simp [List.getLastD_eq_getLast?, List.getLast?_append_of_ne_nil _ h, ha]

theorem no_nl_carry (l : List Char) : '\n' ∉ (splitNl l).getLastD [] :=
  mem_splitNl_no_nl l _ (getLastD_mem_of_ne_nil _ _ (splitNl_ne_nil l))

theorem handlePluginOutput_norm (parse : List Char → Option PluginResponse)
    (st : BridgeState) (data : List Char) :
    handlePluginOutput parse st data =
      { processLines parse st (splitNl (st.messageBuffer ++ data)).dropLast with
        messageBuffer := (splitNl (st.messageBuffer ++ data)).getLastD [] } := by
  unfold handlePluginOutput
  rw [processLines_buffer_float]

/-- Two consecutive chunk deliveries are one delivery of the appended
chunk: the carry buffer makes decoding chunk-boundary invariant. -/
theorem handlePluginOutput_comp (parse : List Char → Option PluginResponse)
    (st : BridgeState) (d b : List Char) :
    handlePluginOutput parse (handlePluginOutput parse st d) b =
      handlePluginOutput parse st (d ++ b) := by
  have hc1 : '\n' ∉ (splitNl (st.messageBuffer ++ d)).getLastD [] := no_nl_carry _
  have hXbuf : (handlePluginOutput parse st d).messageBuffer =
      (splitNl (st.messageBuffer ++ d)).getLastD [] := by
    rw [handlePluginOutput_norm]
  have hsplit1 : splitNl ((splitNl (st.messageBuffer ++ d)).getLastD [] ++ b) =
      ((splitNl (st.messageBuffer ++ d)).getLastD [] ++ (splitNl b).headI) ::
        (splitNl b).tail := by
    rw [splitNl_append, splitNl_of_no_nl _ hc1]
    simp
  have hsplit2 : splitNl (st.messageBuffer ++ (d ++ b)) =
      (splitNl (st.messageBuffer ++ d)).dropLast ++
        (((splitNl (st.messageBuffer ++ d)).getLastD [] ++ (splitNl b).headI) ::
          (splitNl b).tail) := by
    rw [← List.append_assoc, splitNl_append]
  conv_lhs =>
    rw [handlePluginOutput_norm parse (handlePluginOutput parse st d) b,
      hXbuf, hsplit1, handlePluginOutput_norm parse st d,
      processLines_buffer_float]
  conv_rhs =>
    rw [handlePluginOutput_norm parse st (d ++ b), hsplit2,
      getLastD_append_of_ne_nil _ _ (by simp),
      List.dropLast_append_of_ne_nil _ (by simp),
      processLines_append]

/-- Suffix after the last newline is exactly the carry the split keeps. -/
theorem carry_eq_suffixAfter (l : List Char) :
    (splitNl l).getLastD [] = suffixAfter '\n' l := by
  induction l using List.reverseRecOn with
  | nil => simp [splitNl, suffixAfter]
  | append_singleton l c ih =>
    by_cases hc : c = '\n'
    · subst hc
      rw [splitNl_append]
      have : splitNl ['\n'] = [[], []] := by simp [splitNl]
      rw [this]
      rw [getLastD_append_of_ne_nil _ _ (by simp)]
      simp [suffixAfter]
    · have hsing : splitNl [c] = [[c]] := by
        simp [splitNl, hc]
      have h1 : (splitNl (l ++ [c])).getLastD [] = (splitNl l).getLastD [] ++ [c] := by
        rw [splitNl_append, hsing, getLastD_append_of_ne_nil _ _ (by simp)]
        simp
      have h2 : suffixAfter '\n' (l ++ [c]) = suffixAfter '\n' l ++ [c] := by
        unfold suffixAfter
        rw [List.reverse_append]
        simp only [List.reverse_singleton, List.singleton_append]
        rw [List.takeWhile_cons_of_pos (by simp [hc])]
        simp
      rw [h1, h2, ih]

/-! Registry lemmas: the callback map under lookup, erase and set. -/

theorem lookupKey_eq_of_mem (m : List (List Char × Nat)) (k : List Char) (v : Nat)
    (hmem : (k, v) ∈ m) (hnd : (m.map Prod.fst).Nodup) : lookupKey m k = some v := by
  induction m with
  | nil => simp at hmem
  | cons p rest ih =>
    rcases p with ⟨k1, v1⟩
    simp only [List.map_cons, List.nodup_cons] at hnd
    rcases List.mem_cons.mp hmem with h | h
    · rw [Prod.mk.injEq] at h
      rcases h with ⟨h1, h2⟩
      subst h1
      subst h2
      simp [lookupKey]
    · have hk : k1 ≠ k := by
        intro he
        subst he
        exact hnd.1 (List.mem_map_of_mem Prod.fst h)
      simp only [lookupKey, if_neg hk]
      exact ih h hnd.2

theorem lookupKey_eq_none (m : List (List Char × Nat)) (k : List Char)
    (h : ∀ p ∈ m, p.1 ≠ k) : lookupKey m k = none := by
  induction m with
  | nil => rfl
  | cons p rest ih =>
    rcases p with ⟨k1, v1⟩
    simp only [lookupKey, if_neg (h (k1, v1) (by simp))]
    exact ih (fun q hq => h q (by simp [hq]))

theorem eraseKey_append_cons (m1 m2 : List (List Char × Nat)) (k : List Char)
    (v : Nat) (h : ∀ p ∈ m1, p.1 ≠ k) : eraseKey (m1 ++ (k, v) :: m2) k = m1 ++ m2 := by
  induction m1 with
  | nil => simp [eraseKey]
  | cons p rest ih =>
    rcases p with ⟨k1, v1⟩
    simp only [List.cons_append, eraseKey, if_neg (h (k1, v1) (by simp)), List.append_eq]
    rw [ih (fun q hq => h q (by simp [hq]))]

theorem eraseKey_perm (m : List (List Char × Nat)) (l : List (List Char × Nat))
    (k : List Char) (v : Nat) (hnd : (m.map Prod.fst).Nodup)
    (hperm : m.Perm ((k, v) :: l)) : (eraseKey m k).Perm l := by
  have hmem : (k, v) ∈ m := hperm.mem_iff.mpr (by simp)
  rcases List.append_of_mem hmem with ⟨m1, m2, rfl⟩
  have hk1 : ∀ p ∈ m1, p.1 ≠ k := by
    intro p hp he
    rw [List.map_append, List.map_cons] at hnd
    rcases List.nodup_append.mp hnd with ⟨_, _, hdisj⟩
    exact hdisj (List.mem_map_of_mem Prod.fst hp) (by simp [he])
  rw [eraseKey_append_cons m1 m2 k v hk1]
  exact (List.perm_middle.symm.trans hperm).cons_inv

theorem setKey_fresh (m : List (List Char × Nat)) (k : List Char) (v : Nat)
    (h : ∀ p ∈ m, p.1 ≠ k) : setKey m k v = m ++ [(k, v)] := by
  induction m with
  | nil => rfl
  | cons p rest ih =>
    rcases p with ⟨k1, v1⟩
    simp only [setKey, if_neg (h (k1, v1) (by simp))]
    rw [ih (fun q hq => h q (by simp [hq]))]
    rfl

/-- Processing the lines of a list of matched deliveries, in any order the
registry rows were registered in, settles each delivery's caller with the
outcome of its own response and drains the registry. -/
theorem processDeliveries (parse : List Char → Option PluginResponse)
    (ds : List Delivery) (st : BridgeState)
    (hperm : st.responseCallbacks.Perm (ds.map deliveryPair))
    (hkeys : (ds.map Delivery.respId).Nodup)
    (hall : ∀ d ∈ ds, parse d.line = some d.resp ∧ d.resp.id = some d.respId ∧
      d.respId ≠ [] ∧ isBlank d.line = false) :
    processLines parse st (ds.map Delivery.line) =
      { st with
        responseCallbacks := [],
        settled := st.settled ++ ds.map deliveryOutcome } := by
  induction ds generalizing st with
  | nil =>
    have hnil : st.responseCallbacks = [] := hperm.eq_nil
    show st = _
    rw [← hnil]
    simp
  | cons d rest ih =>
    have hd := hall d (by simp)
    have hkeysPerm : (st.responseCallbacks.map Prod.fst).Perm
        ((d :: rest).map Delivery.respId) := by
      have h1 := hperm.map Prod.fst
      rw [List.map_map] at h1
      exact h1
    have hndm : (st.responseCallbacks.map Prod.fst).Nodup :=
      (hkeysPerm.nodup_iff).mpr hkeys
    have hmem : (d.respId, d.caller) ∈ st.responseCallbacks :=
      hperm.mem_iff.mpr (by simp [deliveryPair])
    have hlook : lookupKey st.responseCallbacks d.respId = some d.caller :=
      lookupKey_eq_of_mem _ _ _ hmem hndm
    have hstep : resolveLine parse st d.line =
        { st with
          settled := st.settled ++ [(d.caller, outcomeOf d.resp)],
          responseCallbacks := eraseKey st.responseCallbacks d.respId } := by
      rw [resolveLine_eq_build]
      simp [rcAfter, settleDelta, logDelta, hd.1, hd.2.1, hd.2.2.1, hd.2.2.2, hlook]
    show processLines parse (resolveLine parse st d.line) (rest.map Delivery.line) = _
    rw [hstep]
    rw [ih _ ?hp ?hk ?ha]
    case hp =>
      show (eraseKey st.responseCallbacks d.respId).Perm (rest.map deliveryPair)
      exact eraseKey_perm _ _ _ d.caller hndm (by simpa [deliveryPair] using hperm)
    case hk => exact (List.nodup_cons.mp hkeys).2
    case ha => exact fun e he => hall e (by simp [he])
    simp [deliveryOutcome]

/-! The send side: generated identifiers are unique per bridge instance,
so a sequence of sends builds a registry with pairwise-distinct keys. -/

theorem genId_inj (t1 c1 t2 c2 : Nat) (h : c1 ≠ c2) : genId t1 c1 ≠ genId t2 c2 := by
  intro he
  have h1 := suffixAfter_genId t1 c1
  rw [he, suffixAfter_genId t2 c2] at h1
  exact h (natDigits_injective c1 c2 h1.symm)

theorem sendCommand_rc (st : BridgeState) (cmd : PluginCommand) (caller now : Nat) :
    (sendCommand st cmd caller now).responseCallbacks =
      setKey st.responseCallbacks (genId now st.messageId) caller := by
  unfold sendCommand
  rcases st.pluginProcess with _ | proc
  · rfl
  · dsimp only
    split
    · rcases stringifyVal (mkMessage cmd (genId now st.messageId)) with _ | body <;> rfl
    · rfl

theorem sendCommand_fields (st : BridgeState) (cmd : PluginCommand) (caller now : Nat) :
    (sendCommand st cmd caller now).messageBuffer = st.messageBuffer ∧
    (sendCommand st cmd caller now).pluginProcess = st.pluginProcess ∧
    (sendCommand st cmd caller now).messageId = st.messageId + 1 ∧
    (sendCommand st cmd caller now).log = st.log := by
  unfold sendCommand
  rcases st.pluginProcess with _ | proc
  · exact ⟨rfl, rfl, rfl, rfl⟩
  · dsimp only
    split
    · rcases stringifyVal (mkMessage cmd (genId now st.messageId)) with _ | body <;>
        exact ⟨rfl, rfl, rfl, rfl⟩
    · exact ⟨rfl, rfl, rfl, rfl⟩

theorem stringify_mkMessage_isSome (cmd : PluginCommand) (i : List Char)
    (h : representable cmd = true) :
    ∃ body, stringifyVal (mkMessage cmd i) = some body := by
  unfold representable at h
  unfold mkMessage
  cases hp : cmd.payload with
  | none =>
    simp [stringifyVal, stringifyObj]
  | some p =>
    rw [hp] at h
    rcases Option.isSome_iff_exists.mp h with ⟨sp, hsp⟩
    simp [stringifyVal, stringifyObj, hsp]

theorem sendCommand_settled_ok (st : BridgeState) (cmd : PluginCommand)
    (caller now : Nat) (hproc : st.pluginProcess = some ⟨true⟩)
    (hrep : representable cmd = true) :
    (sendCommand st cmd caller now).settled = st.settled := by
  rcases stringify_mkMessage_isSome cmd (genId now st.messageId) hrep with ⟨body, hbody⟩
  unfold sendCommand
  rw [show ({ st with
      messageId := st.messageId + 1,
      responseCallbacks := setKey st.responseCallbacks (genId now st.messageId) caller } :
      BridgeState).pluginProcess = some ⟨true⟩ from hproc]
  simp [hbody]

theorem mem_assignedIds (mid : Nat) (sends : List (PluginCommand × Nat × Nat))
    (k : List Char) (h : k ∈ assignedIds mid sends) :
    ∃ t c, mid ≤ c ∧ k = genId t c := by
  induction sends generalizing mid with
  | nil => simp [assignedIds] at h
  | cons s rest ih =>
    rcases s with ⟨cmd, caller, now⟩
    simp only [assignedIds] at h
    rcases List.mem_cons.mp h with h | h
    · exact ⟨now, mid, Nat.le_refl mid, h⟩
    · rcases ih (mid + 1) h with ⟨t, c, hc, hk⟩
      exact ⟨t, c, by omega, hk⟩

theorem assignedIds_nodup (mid : Nat) (sends : List (PluginCommand × Nat × Nat)) :
    (assignedIds mid sends).Nodup := by
  induction sends generalizing mid with
  | nil => simp [assignedIds]
  | cons s rest ih =>
    rcases s with ⟨cmd, caller, now⟩
    simp only [assignedIds]
    rw [List.nodup_cons]
    constructor
    · intro hmem
      rcases mem_assignedIds (mid + 1) rest _ hmem with ⟨t, c, hc, hk⟩
      exact genId_inj now mid t c (by omega) hk
    · exact ih (mid + 1)

theorem pendingOf_keys (mid : Nat) (sends : List (PluginCommand × Nat × Nat)) :
    (pendingOf mid sends).map Prod.fst = assignedIds mid sends := by
  induction sends generalizing mid with
  | nil => rfl
  | cons s rest ih =>
    rcases s with ⟨cmd, caller, now⟩
    simp only [pendingOf, assignedIds, List.map_cons]
    rw [ih (mid + 1)]

/-- Effect of a sequence of sendCommand calls on a state whose registry
keys all use counters below the current messageId: each send appends a
fresh registry row, and with the process stream up and representable
payloads nothing is settled and nothing else changes. -/
theorem sendAll_norm (sends : List (PluginCommand × Nat × Nat)) (st : BridgeState)
    (hb : ∀ p ∈ st.responseCallbacks, ∃ t c, c < st.messageId ∧ p.1 = genId t c)
    (hproc : st.pluginProcess = some ⟨true⟩)
    (hrep : ∀ s ∈ sends, representable s.1 = true) :
    (sendAll st sends).responseCallbacks =
        st.responseCallbacks ++ pendingOf st.messageId sends ∧
      (sendAll st sends).settled = st.settled ∧
      (sendAll st sends).messageBuffer = st.messageBuffer ∧
      (sendAll st sends).pluginProcess = st.pluginProcess ∧
      (sendAll st sends).log = st.log := by
  induction sends generalizing st with
  | nil => exact ⟨by simp [sendAll, pendingOf], rfl, rfl, rfl, rfl⟩
  | cons s rest ih =>
    rcases s with ⟨cmd, caller, now⟩
    have hfresh : ∀ p ∈ st.responseCallbacks, p.1 ≠ genId now st.messageId := by
      intro p hp he
      rcases hb p hp with ⟨t, c, hc, hk⟩
      exact genId_inj t c now st.messageId (by omega) (hk ▸ he)
    have hrc : (sendCommand st cmd caller now).responseCallbacks =
        st.responseCallbacks ++ [(genId now st.messageId, caller)] := by
      rw [sendCommand_rc, setKey_fresh _ _ _ hfresh]
    have hflds := sendCommand_fields st cmd caller now
    have hstl := sendCommand_settled_ok st cmd caller now hproc
      (hrep (cmd, caller, now) (by simp))
    have hb1 : ∀ p ∈ (sendCommand st cmd caller now).responseCallbacks,
        ∃ t c, c < (sendCommand st cmd caller now).messageId ∧ p.1 = genId t c := by
      intro p hp
      rw [hrc] at hp
      rw [hflds.2.2.1]
      rcases List.mem_append.mp hp with h | h
      · rcases hb p h with ⟨t, c, hc, hk⟩
        exact ⟨t, c, by omega, hk⟩
      · simp at h
        exact ⟨now, st.messageId, by omega, by rw [h]⟩
    have hproc1 : (sendCommand st cmd caller now).pluginProcess = some ⟨true⟩ := by
      rw [hflds.2.1, hproc]
    rcases ih (sendCommand st cmd caller now) hb1 hproc1
      (fun q hq => hrep q (by simp [hq])) with ⟨h1, h2, h3, h4, h5⟩
    refine ⟨?_, ?_, ?_, ?_, ?_⟩
    · show (sendAll (sendCommand st cmd caller now) rest).responseCallbacks = _
      rw [h1, hrc, hflds.2.2.1]
      simp [pendingOf]
    · show (sendAll (sendCommand st cmd caller now) rest).settled = _
      rw [h2, hstl]
    · show (sendAll (sendCommand st cmd caller now) rest).messageBuffer = _
      rw [h3, hflds.1]
    · show (sendAll (sendCommand st cmd caller now) rest).pluginProcess = _
      rw [h4, hflds.2.1]
    · show (sendAll (sendCommand st cmd caller now) rest).log = _
      rw [h5, hflds.2.2.2]

/-! Remaining helper lemmas for the claim theorems. -/

theorem cons_headI_tail (x : List (List Char)) (h : x ≠ []) : x.headI :: x.tail = x := by
  cases x with
  | nil => exact absurd rfl h
  | cons a as => rfl

theorem splitNl_joinNl (ls : List (List Char)) (hls : ∀ l ∈ ls, '\n' ∉ l) :
    splitNl (joinNl ls) = ls ++ [[]] := by
  induction ls with
  | nil => simp [joinNl, splitNl]
  | cons l rest ih =>
    have hl : '\n' ∉ l := hls l (by simp)
    have hjoin : joinNl (l :: rest) = (l ++ ['\n']) ++ joinNl rest := by
      simp [joinNl]
    have hone : splitNl (l ++ ['\n']) = [l, []] := by
      rw [splitNl_append, splitNl_of_no_nl l hl]
      simp [splitNl]
    rw [hjoin, splitNl_append, hone, ih (fun x hx => hls x (by simp [hx]))]
    have hne : rest ++ [([] : List Char)] ≠ [] := by simp
    simp [cons_headI_tail _ hne]

theorem handle_joinNl (parse : List Char → Option PluginResponse) (st : BridgeState)
    (ls : List (List Char)) (hbuf : st.messageBuffer = [])
    (hls : ∀ l ∈ ls, '\n' ∉ l) :
    handlePluginOutput parse st (joinNl ls) = processLines parse st ls := by
  unfold handlePluginOutput
  rw [hbuf, List.nil_append, splitNl_joinNl ls hls]
  rw [getLastD_append_of_ne_nil _ _ (by simp)]
  have hdrop : (ls ++ [([] : List Char)]).dropLast = ls := by
    simp
  rw [hdrop]
  have hst : { st with messageBuffer := ([([] : List Char)].getLastD []) } = st := by
    rw [show ([([] : List Char)].getLastD []) = ([] : List Char) from rfl, ← hbuf]
  rw [hst]

theorem pendingOf_callers (mid : Nat) (sends : List (PluginCommand × Nat × Nat)) :
    (pendingOf mid sends).map Prod.snd = sends.map (fun s => s.2.1) := by
  induction sends generalizing mid with
  | nil => rfl
  | cons s rest ih =>
    rcases s with ⟨cmd, caller, now⟩
    simp only [pendingOf, List.map_cons]
    rw [ih (mid + 1)]

theorem lookupKey_setKey_self (m : List (List Char × Nat)) (k : List Char) (v : Nat) :
    lookupKey (setKey m k v) k = some v := by
  induction m with
  | nil => simp [setKey, lookupKey]
  | cons p rest ih =>
    rcases p with ⟨k1, v1⟩
    by_cases hk : k1 = k
    · simp [setKey, hk, lookupKey]
    · simp [setKey, hk, lookupKey, ih]

theorem lookupKey_some_mem (m : List (List Char × Nat)) (k : List Char) (v : Nat)
    (h : lookupKey m k = some v) : (k, v) ∈ m := by
  induction m with
  | nil => simp [lookupKey] at h
  | cons p rest ih =>
    rcases p with ⟨k1, v1⟩
    by_cases hk : k1 = k
    · subst hk
      simp [lookupKey] at h
      simp [h]
    · simp only [lookupKey, if_neg hk] at h
      simp [ih h]

theorem lookupKey_eraseKey_self (m : List (List Char × Nat)) (k : List Char) (v : Nat)
    (hnd : (m.map Prod.fst).Nodup) (hmem : (k, v) ∈ m) :
    lookupKey (eraseKey m k) k = none := by
  rcases List.append_of_mem hmem with ⟨m1, m2, rfl⟩
  rw [List.map_append, List.map_cons] at hnd
  rcases List.nodup_append.mp hnd with ⟨_, hnd2, hdisj⟩
  have hk1 : ∀ p ∈ m1, p.1 ≠ k := by
    intro p hp he
    exact hdisj (List.mem_map_of_mem Prod.fst hp) (by simp [he])
  have hk2 : ∀ p ∈ m2, p.1 ≠ k := by
    intro p hp he
    rcases List.nodup_cons.mp hnd2 with ⟨hnotin, _⟩
    exact hnotin (by simpa [he] using List.mem_map_of_mem Prod.fst hp)
  rw [eraseKey_append_cons _ _ _ _ hk1]
  exact lookupKey_eq_none _ _ (by
    intro p hp
    rcases List.mem_append.mp hp with h | h
    · exact hk1 p h
    · exact hk2 p h)

theorem rcAfter_none (parse : List Char → Option PluginResponse)
    (m : List (List Char × Nat)) (l : List Char) (h : parse l = none) :
    rcAfter parse m l = m := by
  unfold rcAfter
  split_ifs
  · rfl
  · rw [h]

theorem settleDelta_none (parse : List Char → Option PluginResponse)
    (m : List (List Char × Nat)) (l : List Char) (h : parse l = none) :
    settleDelta parse m l = [] := by
  unfold settleDelta
  split_ifs
  · rfl
  · rw [h]

theorem resolveLine_sansLog_of_parse_none (parse : List Char → Option PluginResponse)
    (st : BridgeState) (l : List Char) (h : parse l = none) :
    sansLog (resolveLine parse st l) = sansLog st := by
  rw [resolveLine_eq_build]
  unfold sansLog
  rw [rcAfter_none parse _ l h, settleDelta_none parse _ l h]
  simp

theorem resolveLine_sansLog_congr (parse : List Char → Option PluginResponse)
    (l : List Char) (s t : BridgeState) (h : sansLog s = sansLog t) :
    sansLog (resolveLine parse s l) = sansLog (resolveLine parse t l) := by
  cases s with
  | mk sp src sbuf smid sstl sw slog =>
    cases t with
    | mk tp trc tbuf tmid tstl tw tlog =>
      simp only [sansLog, BridgeState.mk.injEq, and_true] at h
      obtain ⟨h1, h2, h3, h4, h5, h6⟩ := h
      subst h1
      subst h2
      subst h3
      subst h4
      subst h5
      subst h6
      rw [resolveLine_eq_build, resolveLine_eq_build]
      simp [sansLog]

theorem processLines_sansLog_congr (parse : List Char → Option PluginResponse)
    (ls : List (List Char)) (s t : BridgeState) (h : sansLog s = sansLog t) :
    sansLog (processLines parse s ls) = sansLog (processLines parse t ls) := by
  induction ls generalizing s t with
  | nil => exact h
  | cons l ls ih =>
    show sansLog (processLines parse (resolveLine parse s l) ls) = _
    exact ih _ _ (resolveLine_sansLog_congr parse l s t h)

/-! Claim theorems. -/

/-- C9: two invocations of the id generator with distinct counter values
yield distinct RequestIds, even at the same clock millisecond; since
messageId is incremented on every generateId call, every two distinct
invocations on one bridge instance use distinct counters. -/
theorem c9_generateId_unique (t1 c1 t2 c2 : Nat) (h : c1 ≠ c2) :
    genId t1 c1 ≠ genId t2 c2 :=
  genId_inj t1 c1 t2 c2 h

/-- Witness for C9: the two ids generated at the same millisecond 0 with
counters 0 and 1 differ. -/
theorem c9_witness : genId 0 0 ≠ genId 0 1 :=
  c9_generateId_unique 0 0 0 1 (by decide)

/-- C10: after every handlePluginOutput call the carry buffer contains no
newline and is exactly the suffix of the accumulated input (old buffer
plus new chunk) after its last newline. -/
theorem c10_carry_invariant (parse : List Char → Option PluginResponse)
    (st : BridgeState) (data : List Char) :
    '\n' ∉ (handlePluginOutput parse st data).messageBuffer ∧
      (handlePluginOutput parse st data).messageBuffer =
        suffixAfter '\n' (st.messageBuffer ++ data) := by
  have hbuf : (handlePluginOutput parse st data).messageBuffer =
      (splitNl (st.messageBuffer ++ data)).getLastD [] := by
    rw [handlePluginOutput_norm]
  constructor
  · rw [hbuf]
    exact no_nl_carry _
  · rw [hbuf, carry_eq_suffixAfter]

/-- C3 (amended): on transport closure nothing is rejected.  shutdown only
kills and nulls the process handle and the exit handler only logs and
nulls it; the pending-call registry and the settlement history are left
untouched, so pending calls stay pending (and a later reply would still be
delivered, since their callbacks remain registered). -/
theorem c3_closure_rejects_nothing (st : BridgeState) :
    (shutdown st).responseCallbacks = st.responseCallbacks ∧
      (shutdown st).settled = st.settled ∧
      (shutdown st).pluginProcess = none ∧
      (onProcessExit st).responseCallbacks = st.responseCallbacks ∧
      (onProcessExit st).settled = st.settled ∧
      (onProcessExit st).pluginProcess = none := by
  unfold shutdown onProcessExit
  cases hp : st.pluginProcess with
  | none => simp [hp]
  | some proc => simp

/-- Counterexample for C3: with one call pending, shutdown settles nothing
(the pending call is not rejected with a channel-closed error, so it hangs)
and a reply arriving after closure is still delivered to its caller. -/
theorem c3_counterexample :
    (shutdown ⟨some ⟨true⟩, [(['a'], 0)], [], 0, [], [], []⟩).settled = [] ∧
      (shutdown ⟨some ⟨true⟩, [(['a'], 0)], [], 0, [], [], []⟩).responseCallbacks =
        [(['a'], 0)] ∧
      (handlePluginOutput
          (fun l => if l = ['r'] then
            some ⟨[], true, none, none, some ['a']⟩ else none)
          (shutdown ⟨some ⟨true⟩, [(['a'], 0)], [], 0, [], [], []⟩)
          ['r', '\n']).settled = [(0, Outcome.resolved none)] := by
  refine ⟨rfl, rfl, ?_⟩
  decide

/-- C5 (amended): registering a pending call while its id is already
registered raises no DuplicateId error (no such failure exists in the
code); Map.set silently replaces the existing pending call's handle, so
the previous caller's callback is dropped and the new caller's callback is
the one found under the id. -/
theorem c5_register_replaces (st : BridgeState) (cmd : PluginCommand)
    (caller now : Nat) (c0 : Nat)
    (h : lookupKey st.responseCallbacks (genId now st.messageId) = some c0) :
    (sendCommand st cmd caller now).responseCallbacks =
        setKey st.responseCallbacks (genId now st.messageId) caller ∧
      lookupKey (sendCommand st cmd caller now).responseCallbacks
        (genId now st.messageId) = some caller := by
  refine ⟨sendCommand_rc st cmd caller now, ?_⟩
  rw [sendCommand_rc]
  exact lookupKey_setKey_self _ _ _

/-- Witness for C5's amended statement at a concrete collision. -/
theorem c5_witness :
    lookupKey (⟨some ⟨true⟩, [(genId 5 0, 7)], [], 0, [], [], []⟩ :
        BridgeState).responseCallbacks (genId 5 0) = some 7 ∧
      lookupKey (sendCommand ⟨some ⟨true⟩, [(genId 5 0, 7)], [], 0, [], [], []⟩
        ⟨['G'], none⟩ 9 5).responseCallbacks (genId 5 0) = some 9 :=
  ⟨by decide,
    (c5_register_replaces ⟨some ⟨true⟩, [(genId 5 0, 7)], [], 0, [], [], []⟩
      ⟨['G'], none⟩ 9 5 7 (by decide)).2⟩

/-- Counterexample for C5: a second registration under an already
registered id settles no DuplicateId failure (settled stays empty) and the
old handle (caller 7) is silently replaced by the new one (caller 9). -/
theorem c5_counterexample :
    (sendCommand ⟨some ⟨true⟩, [(genId 5 0, 7)], [], 0, [], [], []⟩
        ⟨['G'], none⟩ 9 5).responseCallbacks = [(genId 5 0, 9)] ∧
      (sendCommand ⟨some ⟨true⟩, [(genId 5 0, 7)], [], 0, [], [], []⟩
        ⟨['G'], none⟩ 9 5).settled = [] := by
  decide

/-- C6 (amended): when the synchronous send step fails because the child
process or its stdin stream is unavailable, the call is rejected
immediately, but the just-created registry entry is NOT removed: the
registry keeps an entry for an id whose command was never written. -/
theorem c6_no_rollback (st : BridgeState) (cmd : PluginCommand) (caller now : Nat)
    (h : st.pluginProcess = none ∨ st.pluginProcess = some ⟨false⟩) :
    (sendCommand st cmd caller now).settled =
        st.settled ++ [(caller, Outcome.rejectedNoProcess)] ∧
      lookupKey (sendCommand st cmd caller now).responseCallbacks
        (genId now st.messageId) = some caller := by
  constructor
  · unfold sendCommand
    rcases h with h | h
    · rw [show ({ st with
          messageId := st.messageId + 1,
          responseCallbacks :=
            setKey st.responseCallbacks (genId now st.messageId) caller } :
          BridgeState).pluginProcess = none from h]
    · rw [show ({ st with
          messageId := st.messageId + 1,
          responseCallbacks :=
            setKey st.responseCallbacks (genId now st.messageId) caller } :
          BridgeState).pluginProcess = some ⟨false⟩ from h]
      simp
  · rw [sendCommand_rc]
    exact lookupKey_setKey_self _ _ _

/-- Witness for C6's amended statement at a concrete failing send. -/
theorem c6_witness :
    (sendCommand ⟨none, [], [], 2, [], [], []⟩ ⟨['G'], none⟩ 4 1).settled =
        [(4, Outcome.rejectedNoProcess)] ∧
      lookupKey (sendCommand ⟨none, [], [], 2, [], [], []⟩
        ⟨['G'], none⟩ 4 1).responseCallbacks (genId 1 2) = some 4 := by
  have h := c6_no_rollback ⟨none, [], [], 2, [], [], []⟩ ⟨['G'], none⟩ 4 1 (Or.inl rfl)
  exact ⟨h.1, h.2⟩

/-- Counterexample for C6: the failing send leaves its registry entry in
place while the failure is surfaced, instead of rolling it back. -/
theorem c6_counterexample :
    (sendCommand ⟨none, [], [], 0, [], [], []⟩ ⟨['G'], none⟩ 3 0).settled =
        [(3, Outcome.rejectedNoProcess)] ∧
      (sendCommand ⟨none, [], [], 0, [], [], []⟩ ⟨['G'], none⟩ 3 0).responseCallbacks =
        [(genId 0 0, 3)] := by
  decide

/-- C2: decoding is chunk-boundary invariant.  Feeding any chunks one at a
time through handlePluginOutput (which carries the unparsed remainder in
messageBuffer) produces exactly the same final state — the same decoded
replies, delivered in the same order, and the same carry — as feeding the
whole stream in a single call. -/
theorem c2_chunk_invariance (parse : List Char → Option PluginResponse)
    (st : BridgeState) (chunks : List (List Char)) (h : '\n' ∉ st.messageBuffer) :
    List.foldl (handlePluginOutput parse) st chunks =
      handlePluginOutput parse st chunks.flatten := by
  induction chunks generalizing st with
  | nil =>
    show st = handlePluginOutput parse st []
    rw [handlePluginOutput_norm]
    rw [List.append_nil, splitNl_of_no_nl _ h]
    rfl
  | cons d rest ih =>
    show List.foldl (handlePluginOutput parse) (handlePluginOutput parse st d) rest = _
    have hb : '\n' ∉ (handlePluginOutput parse st d).messageBuffer := by
      rw [handlePluginOutput_norm]
      exact no_nl_carry _
    rw [ih _ hb, handlePluginOutput_comp]
    rfl

/-- Witness for C2: one record split across three chunks decodes as when
fed at once. -/
theorem c2_witness :
    ('\n' ∉ (⟨some ⟨true⟩, [(['a'], 3)], [], 0, [], [], []⟩ :
        BridgeState).messageBuffer) ∧
      List.foldl
        (handlePluginOutput (fun l => if l = ['r'] then
          some ⟨[], true, none, none, some ['a']⟩ else none))
        ⟨some ⟨true⟩, [(['a'], 3)], [], 0, [], [], []⟩
        [['r'], ['\n', 'x'], ['y', '\n']] =
      handlePluginOutput (fun l => if l = ['r'] then
          some ⟨[], true, none, none, some ['a']⟩ else none)
        ⟨some ⟨true⟩, [(['a'], 3)], [], 0, [], [], []⟩
        ([['r'], ['\n', 'x'], ['y', '\n']] : List (List Char)).flatten :=
  ⟨by decide,
    c2_chunk_invariance _ ⟨some ⟨true⟩, [(['a'], 3)], [], 0, [], [], []⟩
      [['r'], ['\n', 'x'], ['y', '\n']] (by decide)⟩

/-- C7: with the process stream up, a representable message is written as
exactly one record — a body free of raw newlines followed by exactly one
newline — and an unrepresentable payload rejects the call with the
serialization error and writes nothing. -/
theorem c7_encode_framing (st : BridgeState) (cmd : PluginCommand)
    (caller now : Nat) (hproc : st.pluginProcess = some ⟨true⟩) :
    (∀ body, stringifyVal (mkMessage cmd (genId now st.messageId)) = some body →
      (sendCommand st cmd caller now).written = st.written ++ body ++ ['\n'] ∧
        '\n' ∉ body ∧ (body ++ ['\n']).count '\n' = 1 ∧
        (sendCommand st cmd caller now).settled = st.settled) ∧
    (stringifyVal (mkMessage cmd (genId now st.messageId)) = none →
      (sendCommand st cmd caller now).written = st.written ∧
        (sendCommand st cmd caller now).settled =
          st.settled ++ [(caller, Outcome.rejectedSerialize)]) := by
  constructor
  · intro body hbody
    refine ⟨?_, stringifyVal_no_nl _ _ hbody, ?_, ?_⟩
    · unfold sendCommand
      rw [show ({ st with
          messageId := st.messageId + 1,
          responseCallbacks :=
            setKey st.responseCallbacks (genId now st.messageId) caller } :
          BridgeState).pluginProcess = some ⟨true⟩ from hproc]
      simp [hbody]
    · rw [List.count_append,
        List.count_eq_zero.mpr (stringifyVal_no_nl _ _ hbody)]
      simp
    · unfold sendCommand
      rw [show ({ st with
          messageId := st.messageId + 1,
          responseCallbacks :=
            setKey st.responseCallbacks (genId now st.messageId) caller } :
          BridgeState).pluginProcess = some ⟨true⟩ from hproc]
      simp [hbody]
  · intro hnone
    constructor <;>
      (unfold sendCommand
       rw [show ({ st with
           messageId := st.messageId + 1,
           responseCallbacks :=
             setKey st.responseCallbacks (genId now st.messageId) caller } :
           BridgeState).pluginProcess = some ⟨true⟩ from hproc]
       simp [hnone])

/-- Witness for C7: a payload containing a newline is escaped into a
newline-free body with a single terminating newline, and a BigInt payload
rejects the call with the serialization error. -/
theorem c7_witness :
    (∃ body,
      stringifyVal (mkMessage ⟨['A'], some (.jsStr ['h', '\n'])⟩ (genId 0 0)) =
          some body ∧
        (sendCommand ⟨some ⟨true⟩, [], [], 0, [], [], []⟩
          ⟨['A'], some (.jsStr ['h', '\n'])⟩ 0 0).written = body ++ ['\n'] ∧
        '\n' ∉ body ∧ (body ++ ['\n']).count '\n' = 1) ∧
      (sendCommand ⟨some ⟨true⟩, [], [], 0, [], [], []⟩
        ⟨['A'], some (.jsBigInt 0)⟩ 1 0).settled =
        [(1, Outcome.rejectedSerialize)] := by
  constructor
  · cases hsome : stringifyVal (mkMessage ⟨['A'], some (.jsStr ['h', '\n'])⟩ (genId 0 0)) with
    | none => exact absurd hsome (by decide)
    | some body =>
      have h7 := (c7_encode_framing ⟨some ⟨true⟩, [], [], 0, [], [], []⟩
        ⟨['A'], some (.jsStr ['h', '\n'])⟩ 0 0 rfl).1 body hsome
      exact ⟨body, rfl, by simpa using h7.1, h7.2.1, h7.2.2.1⟩
  · have h7 := (c7_encode_framing ⟨some ⟨true⟩, [], [], 0, [], [], []⟩
      ⟨['A'], some (.jsBigInt 0)⟩ 1 0 rfl).2 (by decide)
    simpa using h7.2

/-- C8: a segment that fails to parse is only logged: the whole state
apart from the log — registry, settlements, buffer, written bytes — is as
if the malformed line were absent, so no pending call is failed and every
subsequent valid record in the same chunk is still decoded and
delivered. -/
theorem c8_malformed_line_isolated (parse : List Char → Option PluginResponse)
    (st : BridgeState) (pre post : List (List Char)) (bad : List Char)
    (hbad : parse bad = none) (hbuf : st.messageBuffer = [])
    (hpre : ∀ l ∈ pre, '\n' ∉ l) (hbadnl : '\n' ∉ bad)
    (hpost : ∀ l ∈ post, '\n' ∉ l) :
    sansLog (handlePluginOutput parse st (joinNl (pre ++ bad :: post))) =
      sansLog (handlePluginOutput parse st (joinNl (pre ++ post))) ∧
    (handlePluginOutput parse st (joinNl (pre ++ bad :: post))).settled =
      (handlePluginOutput parse st (joinNl (pre ++ post))).settled := by
  have hall1 : ∀ l ∈ pre ++ bad :: post, '\n' ∉ l := by
    intro l hl
    rcases List.mem_append.mp hl with h | h
    · exact hpre l h
    · rcases List.mem_cons.mp h with h | h
      · exact h ▸ hbadnl
      · exact hpost l h
  have hall2 : ∀ l ∈ pre ++ post, '\n' ∉ l := by
    intro l hl
    rcases List.mem_append.mp hl with h | h
    · exact hpre l h
    · exact hpost l h
  rw [handle_joinNl parse st _ hbuf hall1, handle_joinNl parse st _ hbuf hall2]
  have key : sansLog (processLines parse st (pre ++ bad :: post)) =
      sansLog (processLines parse st (pre ++ post)) := by
    rw [show pre ++ bad :: post = pre ++ [bad] ++ post by simp,
      processLines_append, processLines_append, processLines_append]
    apply processLines_sansLog_congr
    show sansLog (resolveLine parse (processLines parse st pre) bad) = _
    exact resolveLine_sansLog_of_parse_none parse _ bad hbad
  refine ⟨key, ?_⟩
  show (processLines parse st (pre ++ bad :: post)).settled =
    (processLines parse st (pre ++ post)).settled
  have h2 := congrArg BridgeState.settled key
  simpa [sansLog] using h2

/-- Witness for C8: a malformed line followed by a valid record; the valid
record is still delivered exactly as without the malformed line. -/
theorem c8_witness :
    (handlePluginOutput (fun l => if l = ['g'] then
        some ⟨[], true, none, none, some ['a']⟩ else none)
      ⟨some ⟨true⟩, [(['a'], 5)], [], 0, [], [], []⟩
      (joinNl ([] ++ ['#'] :: [['g']]))).settled =
    (handlePluginOutput (fun l => if l = ['g'] then
        some ⟨[], true, none, none, some ['a']⟩ else none)
      ⟨some ⟨true⟩, [(['a'], 5)], [], 0, [], [], []⟩
      (joinNl ([] ++ [['g']]))).settled :=
  (c8_malformed_line_isolated _ ⟨some ⟨true⟩, [(['a'], 5)], [], 0, [], [], []⟩
    [] [['g']] ['#'] (by decide) rfl (by decide) (by decide) (by decide)).2

/-- C4: a reply with no id, an empty id, or an id matching no registered
pending call — in particular the id of a call already resolved, since
resolution deregisters the id (second conjunct) — settles no caller and
changes nothing but the log. -/
theorem c4_unmatched_dropped (parse : List Char → Option PluginResponse)
    (st : BridgeState) (line : List Char) (r : PluginResponse)
    (hline : parse line = some r) (hnb : isBlank line = false) :
    ((r.id = none ∨ ∃ i, r.id = some i ∧
        (i = [] ∨ lookupKey st.responseCallbacks i = none)) →
      resolveLine parse st line =
        { st with log := st.log ++ [LogEvent.unmatchedResponse r] }) ∧
    (∀ i c, (st.responseCallbacks.map Prod.fst).Nodup → r.id = some i →
      i ≠ [] → lookupKey st.responseCallbacks i = some c →
      lookupKey (resolveLine parse st line).responseCallbacks i = none) := by
  constructor
  · intro hcase
    rw [resolveLine_eq_build]
    rcases hcase with hid | ⟨i, hid, hcase2⟩
    · simp [rcAfter, settleDelta, logDelta, hnb, hline, hid]
    · by_cases hie : i = []
      · simp [rcAfter, settleDelta, logDelta, hnb, hline, hid, hie]
      · rcases hcase2 with hie2 | hlook
        · exact absurd hie2 hie
        · simp [rcAfter, settleDelta, logDelta, hnb, hline, hid, hie, hlook]
  · intro i c hnd hid hine hlook
    have hrc : rcAfter parse st.responseCallbacks line = eraseKey st.responseCallbacks i := by
      simp [rcAfter, hnb, hline, hid, hine, hlook]
    rw [resolveLine_eq_build]
    show lookupKey (rcAfter parse st.responseCallbacks line) i = none
    rw [hrc]
    exact lookupKey_eraseKey_self _ _ c hnd (lookupKey_some_mem _ _ _ hlook)

/-- Witness for C4: an unmatched reply only logs, and after a matching
reply resolves an id, that id is deregistered. -/
theorem c4_witness :
    resolveLine
        (fun l => if l = ['u'] then some ⟨[], true, none, none, some ['z']⟩
          else if l = ['r'] then some ⟨[], true, none, none, some ['a']⟩ else none)
        ⟨some ⟨true⟩, [(['a'], 1)], [], 0, [], [], []⟩ ['u'] =
      { (⟨some ⟨true⟩, [(['a'], 1)], [], 0, [], [], []⟩ : BridgeState) with
        log := [LogEvent.unmatchedResponse ⟨[], true, none, none, some ['z']⟩] } ∧
    lookupKey (resolveLine
        (fun l => if l = ['u'] then some ⟨[], true, none, none, some ['z']⟩
          else if l = ['r'] then some ⟨[], true, none, none, some ['a']⟩ else none)
        ⟨some ⟨true⟩, [(['a'], 1)], [], 0, [], [], []⟩
        ['r']).responseCallbacks ['a'] = none := by
  constructor
  · exact (c4_unmatched_dropped _ _ ['u'] ⟨[], true, none, none, some ['z']⟩
      rfl (by decide)).1 (Or.inr ⟨['z'], rfl, Or.inr (by decide)⟩)
  · exact (c4_unmatched_dropped _ _ ['r'] ⟨[], true, none, none, some ['a']⟩
      rfl (by decide)).2 ['a'] 1 (by decide) rfl (by decide) (by decide)

/-- C1: send N commands through sendCommand (the assigned ids are then
pairwise distinct), and deliver the N matching replies to
handlePluginOutput in an arbitrary permutation of the registration order:
every caller's promise is settled exactly once, with the outcome of
exactly the reply whose id is the id assigned to that caller's command,
independent of the delivery order, and the registry is drained. -/
theorem c1_reply_correlation (parse : List Char → Option PluginResponse)
    (st0 : BridgeState) (sends : List (PluginCommand × Nat × Nat)) (ds : List Delivery)
    (h0rc : st0.responseCallbacks = []) (h0stl : st0.settled = [])
    (h0buf : st0.messageBuffer = []) (hproc : st0.pluginProcess = some ⟨true⟩)
    (hrep : ∀ s ∈ sends, representable s.1 = true)
    (hcallers : (sends.map (fun s => s.2.1)).Nodup)
    (hperm : (ds.map deliveryPair).Perm (pendingOf st0.messageId sends))
    (hds : ∀ d ∈ ds, parse d.line = some d.resp ∧ d.resp.id = some d.respId ∧
      d.respId ≠ [] ∧ isBlank d.line = false ∧ '\n' ∉ d.line) :
    (handlePluginOutput parse (sendAll st0 sends)
        (joinNl (ds.map Delivery.line))).settled = ds.map deliveryOutcome ∧
      (handlePluginOutput parse (sendAll st0 sends)
        (joinNl (ds.map Delivery.line))).responseCallbacks = [] ∧
      ∀ d ∈ ds, (d.caller, outcomeOf d.resp) ∈
          (handlePluginOutput parse (sendAll st0 sends)
            (joinNl (ds.map Delivery.line))).settled ∧
        ((handlePluginOutput parse (sendAll st0 sends)
            (joinNl (ds.map Delivery.line))).settled.map Prod.fst).count d.caller = 1 := by
  obtain ⟨hrc, hstl, hbuf, hpp, hlog⟩ :=
    sendAll_norm sends st0 (by rw [h0rc]; simp) hproc hrep
  rw [h0rc, List.nil_append] at hrc
  have hbufS : (sendAll st0 sends).messageBuffer = [] := by rw [hbuf, h0buf]
  have hstlS : (sendAll st0 sends).settled = [] := by rw [hstl, h0stl]
  have hlines : ∀ l ∈ ds.map Delivery.line, '\n' ∉ l := by
    intro l hl
    rcases List.mem_map.mp hl with ⟨d, hd, rfl⟩
    exact (hds d hd).2.2.2.2
  rw [handle_joinNl parse _ _ hbufS hlines]
  have hpermS : (sendAll st0 sends).responseCallbacks.Perm (ds.map deliveryPair) := by
    rw [hrc]
    exact hperm.symm
  have hkeys : (ds.map Delivery.respId).Nodup := by
    have h1 : ds.map Delivery.respId = (ds.map deliveryPair).map Prod.fst := by
      rw [List.map_map]
      rfl
    rw [h1]
    have h2 := hperm.map Prod.fst
    rw [pendingOf_keys] at h2
    exact h2.nodup_iff.mpr (assignedIds_nodup _ _)
  rw [processDeliveries parse ds _ hpermS hkeys
    (fun d hd => ⟨(hds d hd).1, (hds d hd).2.1, (hds d hd).2.2.1, (hds d hd).2.2.2.1⟩)]
  have hcallersDs : (ds.map (fun d => d.caller)).Nodup := by
    have h1 : ds.map (fun d => d.caller) = (ds.map deliveryPair).map Prod.snd := by
      rw [List.map_map]
      rfl
    rw [h1]
    have h2 := hperm.map Prod.snd
    rw [pendingOf_callers] at h2
    exact h2.nodup_iff.mpr hcallers
  refine ⟨by rw [hstlS]; simp, rfl, ?_⟩
  intro d hd
  constructor
  · show (d.caller, outcomeOf d.resp) ∈ (sendAll st0 sends).settled ++ ds.map deliveryOutcome
    rw [hstlS, List.nil_append]
    exact List.mem_map_of_mem deliveryOutcome hd
  · show (((sendAll st0 sends).settled ++ ds.map deliveryOutcome).map Prod.fst).count
      d.caller = 1
    have hmapfst : ((sendAll st0 sends).settled ++ ds.map deliveryOutcome).map Prod.fst =
        ds.map (fun d => d.caller) := by
      rw [hstlS, List.nil_append, List.map_map]
      rfl
    rw [hmapfst]
    exact List.count_eq_one_of_mem hcallersDs
      (List.mem_map_of_mem (fun d => d.caller) hd)

/-- Witness for C1: two commands sent, replies delivered in reverse order;
caller 20 receives its domain failure and caller 10 its success, each
exactly once, and the registry is drained. -/
theorem c1_witness :
    (handlePluginOutput
        (fun l => if l = ['A'] then some ⟨[], true, none, none, some (genId 5 0)⟩
          else if l = ['B'] then some ⟨[], false, none, some ['e'], some (genId 6 1)⟩
          else none)
        (sendAll ⟨some ⟨true⟩, [], [], 0, [], [], []⟩
          [(⟨['G'], none⟩, 10, 5), (⟨['H'], none⟩, 20, 6)])
        (joinNl [['B'], ['A']])).settled =
      [(20, Outcome.rejectedError ['e']), (10, Outcome.resolved none)] ∧
    (handlePluginOutput
        (fun l => if l = ['A'] then some ⟨[], true, none, none, some (genId 5 0)⟩
          else if l = ['B'] then some ⟨[], false, none, some ['e'], some (genId 6 1)⟩
          else none)
        (sendAll ⟨some ⟨true⟩, [], [], 0, [], [], []⟩
          [(⟨['G'], none⟩, 10, 5), (⟨['H'], none⟩, 20, 6)])
        (joinNl [['B'], ['A']])).responseCallbacks = [] := by
  have h := c1_reply_correlation
    (fun l => if l = ['A'] then some ⟨[], true, none, none, some (genId 5 0)⟩
      else if l = ['B'] then some ⟨[], false, none, some ['e'], some (genId 6 1)⟩
      else none)
    ⟨some ⟨true⟩, [], [], 0, [], [], []⟩
    [(⟨['G'], none⟩, 10, 5), (⟨['H'], none⟩, 20, 6)]
    [⟨['B'], genId 6 1, 20, ⟨[], false, none, some ['e'], some (genId 6 1)⟩⟩,
     ⟨['A'], genId 5 0, 10, ⟨[], true, none, none, some (genId 5 0)⟩⟩]
    rfl rfl rfl rfl (by decide) (by decide) (by decide) (by decide)
  exact ⟨h.1.trans (by decide), h.2.1⟩

end PluginBridgeModel
